import Mathlib

/-!
Verification of `optimize_images.py`: a batch image optimizer with two parts,
the per-file transform `optimize_image` (color normalization, resize, WebP
save, size statistics, all inside one try/except) and the batch driver `main`
(directory check, candidate enumeration, deterministic sort, skip-if-newer
loop with optimized/skipped counters).

The Python code is shallowly embedded below.  Machine-level concerns are
modelled as follows: Python `int(h * (maxWidth / w))` on nonnegative values is
the floor of the exact rational, modelled as `Nat` floor division; file
modification times are `Nat`; the external image codec (PIL) is modelled by
explicit fields describing what its calls return for a given input file.
-/

namespace OptimizeImages

/-! ### Resize policy (optimize_image, lines 38-46) -/

/-- Dimension part of the resize step (lines 39-43).  The source computes
`ratio = max_width / img.width` and `new_height = int(img.height * ratio)`;
`int` truncates toward zero, which on nonnegative values is the floor of the
exact rational `h * maxWidth / w`, modelled by `Nat` floor division. -/
def resize (w h maxWidth : Nat) : Nat × Nat :=
  if maxWidth < w then (maxWidth, h * maxWidth / w) else (w, h)

/-- Modelled from the spec: the resize policy with new height
`round(height * maxWidth / width)` (round half-up on the exact rational,
`(2*h*maxWidth + w) / (2*w)`).  Written from the spec words, for comparison
with `resize`, which is written from the source. -/
def resizeSpec (w h maxWidth : Nat) : Nat × Nat :=
  if maxWidth < w then (maxWidth, (2 * (h * maxWidth) + w) / (2 * w)) else (w, h)

/-! ### Color normalization (optimize_image, lines 28-36) -/

/-- The PIL color modes named by the source and the spec data model:
`RGB`, `RGBA`, grayscale-with-alpha `LA`, palette `P`, plus plain grayscale
`L` as a representative mode that is neither RGB nor alpha/palette. -/
inductive PilMode where
  | RGB
  | RGBA
  | LA
  | P
  | L
  deriving DecidableEq

/-- One pixel, as channel values in 0..255.  For `LA`/`L` pixels the gray
value is replicated into `r`, `g`, `b`; for `P` pixels the palette-resolved
RGBA color is stored (the source first runs `img.convert('RGBA')`). -/
structure Px where
  r : Nat
  g : Nat
  b : Nat
  a : Nat
  deriving DecidableEq

/-- PIL's MULDIV255 rounding primitive used by paste-with-mask:
`tmp = x*y + 128; ((tmp >> 8) + tmp) >> 8`, i.e. round(x*y/255). -/
def muldiv255 (x y : Nat) : Nat :=
  ((x * y + 128) / 256 + (x * y + 128)) / 256

/-- One channel of pasting a foreground channel `fg` with alpha `a` onto a
background channel `bg` (PIL paste with an alpha mask). -/
def blendChan (bg fg a : Nat) : Nat :=
  muldiv255 bg (255 - a) + muldiv255 fg a

/-- Line 28 membership test: `img.mode in ('RGBA', 'LA', 'P')`. -/
def hasAlphaOrPalette : PilMode → Bool
  | .RGBA | .LA | .P => true
  | _ => false

/-- Direct `img.convert('RGB')` (line 36) at the pixel level: grayscale is
replicated into the three channels; the alpha channel is dropped. -/
def convertRGB (m : PilMode) (p : Px) : Px :=
  match m with
  | .L => ⟨p.r, p.r, p.r, 255⟩
  | _ => ⟨p.r, p.g, p.b, 255⟩

/-- Pixel-level effect of the normalization branch (lines 28-36): `RGBA`,
`LA` and `P` pixels are composited over an opaque white background
(`Image.new('RGB', size, (255,255,255))` then `paste` with the alpha band as
mask); `RGB` is left unchanged; any other mode is converted directly. -/
def normalizePixel (m : PilMode) (p : Px) : Px :=
  match m with
  | .RGBA | .LA | .P =>
      ⟨blendChan 255 p.r p.a, blendChan 255 p.g p.a, blendChan 255 p.b p.a, 255⟩
  | .RGB => p
  | .L => convertRGB .L p

/-- Mode of the image after the normalization branch: always `RGB`. -/
def normalizeMode (m : PilMode) : PilMode :=
  match m with
  | .RGBA | .LA | .P => .RGB
  | .RGB => .RGB
  | .L => .RGB

/-! ### The per-file transform optimize_image (lines 23-62) -/

/-- A decoded image's metadata. -/
structure Img where
  mode : PilMode
  width : Nat
  height : Nat
  deriving DecidableEq

/-- Metadata effect of the transform body: normalization then resize. -/
def transformImg (img : Img) (maxWidth : Nat) : Img :=
  ⟨normalizeMode img.mode, (resize img.width img.height maxWidth).1,
    (resize img.width img.height maxWidth).2⟩

/-- One input file as seen by `optimize_image`: what the external codec
answers for the file's content (`none` when it is not a parseable image),
the input file's byte size, and whether the resize and save library calls
succeed for it.  The decode step itself is `decodeFile`, which couples
`decodesTo` with `byteSize`: an empty file is never decodable. -/
structure ImgFile where
  decodesTo : Option Img
  byteSize : Nat
  resizeOk : Bool
  saveOk : Bool
  deriving DecidableEq

/-- The decode step (line 25), `Image.open`.  PIL raises
UnidentifiedImageError on a zero-byte input before any image data is read,
so a successfully decoded input necessarily has positive byte size; for
nonempty content the codec's answer is the oracle `decodesTo`. -/
def decodeFile (f : ImgFile) : Option Img :=
  if f.byteSize = 0 then none else f.decodesTo

/-- The exceptions that can escape the steps of the try block. -/
inductive TErr where
  | decodeError
  | resizeError
  | saveError
  | zeroDivError
  deriving DecidableEq

/-- The try block of `optimize_image` (lines 24-59), in source order:
decode (line 25), normalize and resize (lines 28-46, library calls that can
raise), save (line 49, writes the output file), size statistics (lines
52-54).  The reduction percentage divides by the input size in MB, which
would raise ZeroDivisionError on a zero-byte input; that branch is kept to
mirror line 54, and is provably unreachable because `decodeFile` already
fails on every zero-byte file. -/
def tryBody (f : ImgFile) (maxWidth : Nat) : Except TErr Img :=
  match decodeFile f with
  | none => .error .decodeError
  | some img =>
    if f.resizeOk = false then .error .resizeError
    else if f.saveOk = false then .error .saveError
    else if f.byteSize = 0 then .error .zeroDivError
    else .ok (transformImg img maxWidth)

/-- `optimize_image` (lines 23-62): the try block's result, with every
exception caught by the bare `except` (lines 60-62) and turned into `False`.
The function is total: no exception propagates to the caller. -/
def optimize_image (f : ImgFile) (maxWidth : Nat) : Bool :=
  match tryBody f maxWidth with
  | .ok _ => true
  | .error _ => false

/-- `optimize_image` together with whether the output file was written by
the save call (line 49).  The save runs before the size statistics, so a
statistics error after a completed save would leave the output on disk with
a `False` return; whether that pair of outcomes is reachable is settled
below. -/
def optimizeRunW (f : ImgFile) (maxWidth : Nat) : Bool × Bool :=
  match decodeFile f with
  | none => (false, false)
  | some _ =>
    if f.resizeOk = false then (false, false)
    else if f.saveOk = false then (false, false)
    else if f.byteSize = 0 then (false, true)
    else (true, true)

/-! ### Candidate filter (main, lines 72-74) -/

/-- ASCII lowercasing of one character, modelling `str.lower()` on the
ASCII file names the script deals with. -/
def lowerChar (c : Char) : Char :=
  if 'A' ≤ c ∧ c ≤ 'Z' then Char.ofNat (c.toNat + 32) else c

/-- Index of the last `'.'` in a name, `Python name.rfind('.')` restricted
to found/not-found. -/
def lastDotIdx : List Char → Option Nat
  | [] => none
  | c :: cs =>
    match lastDotIdx cs with
    | some i => some (i + 1)
    | none => if c = '.' then some 0 else none

/-- `pathlib.PurePath.suffix` on a file name: the substring from the last
dot, but empty unless `0 < i < len(name) - 1` (so a leading dot or a
trailing dot yields no suffix). -/
def suffixOf (name : List Char) : List Char :=
  match lastDotIdx name with
  | none => []
  | some i => if 0 < i ∧ i < name.length - 1 then name.drop i else []

def extJpg : List Char := ['.', 'j', 'p', 'g']

def extJpeg : List Char := ['.', 'j', 'p', 'e', 'g']

def extJPGu : List Char := ['.', 'J', 'P', 'G']

def extJPEGu : List Char := ['.', 'J', 'P', 'E', 'G']

def extPng : List Char := ['.', 'p', 'n', 'g']

def extPNGu : List Char := ['.', 'P', 'N', 'G']

def extWebp : List Char := ['.', 'w', 'e', 'b', 'p']

/-- Membership in the `image_extensions` tuple of line 72. -/
def extMatch (s : List Char) : Bool :=
  s == extJpg || s == extJpeg || s == extJPGu || s == extJPEGu ||
    s == extPng || s == extPNGu

/-- The filter of lines 73-74 as written: lowered suffix is one of the image
extensions AND the name does not end with `.webp`. -/
def isCandidateFull (name : List Char) : Bool :=
  extMatch ((suffixOf name).map lowerChar) && !(decide (extWebp <:+ name))

/-- The same filter without the `.webp` conjunct. -/
def isCandidateNoWebp (name : List Char) : Bool :=
  extMatch ((suffixOf name).map lowerChar)

/-! ### Batch driver (main, lines 64-105) -/

/-- One candidate input file as the driver sees it: its name, its mtime, the
state of its would-be output (`name.webp`), and whether `optimize_image`
returns `True` on it. -/
structure FileInfo where
  name : String
  inMtime : Nat
  outExists : Bool
  outMtime : Nat
  transformOk : Bool
  deriving DecidableEq

/-- The skip condition of lines 91-92: the output exists and its mtime is
strictly newer than the input's. -/
def skipCheck (f : FileInfo) : Bool :=
  f.outExists && decide (f.inMtime < f.outMtime)

/-- Per-file terminal state of the driver loop. -/
inductive Outcome where
  | skippedExisting
  | processed
  | failed
  deriving DecidableEq

/-- The loop body's decision for one file (lines 91-99). -/
def fileOutcome (f : FileInfo) : Outcome :=
  if skipCheck f then .skippedExisting
  else if f.transformOk then .processed
  else .failed

/-- The files on which the loop reaches line 98 and invokes the transform. -/
def invokedFiles (files : List FileInfo) : List FileInfo :=
  files.filter fun f => !skipCheck f

/-- The counter loop of lines 86-99 over the sorted candidate list,
accumulating `(optimized_count, skipped_count)`. -/
def runLoop : List FileInfo → Nat × Nat → Nat × Nat
  | [], acc => acc
  | f :: fs, acc =>
    if skipCheck f then runLoop fs (acc.1, acc.2 + 1)
    else if f.transformOk then runLoop fs (acc.1 + 1, acc.2)
    else runLoop fs acc

/-- Terminal states of all files, in visit order. -/
def outcomes (files : List FileInfo) : List Outcome :=
  files.map fileOutcome

def optimizedCount : List FileInfo → Nat
  | [] => 0
  | f :: fs => (if fileOutcome f = Outcome.processed then 1 else 0) + optimizedCount fs

def skippedCount : List FileInfo → Nat
  | [] => 0
  | f :: fs => (if fileOutcome f = Outcome.skippedExisting then 1 else 0) + skippedCount fs

def failedCount : List FileInfo → Nat
  | [] => 0
  | f :: fs => (if fileOutcome f = Outcome.failed then 1 else 0) + failedCount fs

/-- Filesystem state of one candidate's output after the run: a processed
file's output was written by the save call at wall-clock time `now`; a
skipped file's output is untouched; a failed file's pre-existing output
state is kept here (the partial write on failure is tracked by
`optimizeRunW`). -/
def outputAfterRun (now : Nat) (f : FileInfo) : Bool × Nat :=
  match fileOutcome f with
  | .processed => (true, now)
  | .skippedExisting => (f.outExists, f.outMtime)
  | .failed => (f.outExists, f.outMtime)

/-- The sort of line 86: `sorted(image_files)` over paths that all live in
one directory compares lexicographically by file name. -/
def sortByName (files : List FileInfo) : List FileInfo :=
  files.insertionSort fun a b => a.name ≤ b.name

/-- Visit order of the driver on a raw enumeration of candidate names. -/
def visitOrder (names : List String) : List String :=
  names.insertionSort (· ≤ ·)

/-- The input directory as `main` sees it. -/
structure FS where
  dirExists : Bool
  entries : List FileInfo

/-- Observable result of one run of `main`: whether the directory was
enumerated, the final `(optimized, skipped)` counters (`none` when the run
ended before the counters were created), how many files had the transform
invoked, and whether an error was signaled to the OS (never: `main` always
returns normally). -/
structure RunReport where
  enumerated : Bool
  counts : Option (Nat × Nat)
  invoked : Nat
  osError : Bool
  deriving DecidableEq

/-- Candidate enumeration (lines 72-74). -/
def candidates (fs : FS) : List FileInfo :=
  fs.entries.filter fun f => isCandidateFull f.name.data

/-- `main` (lines 64-105): missing directory aborts before enumeration
(lines 67-69); empty candidate list returns before the counters exist
(lines 76-78); otherwise the sorted loop runs and the counters are
reported. -/
def main (fs : FS) : RunReport :=
  if fs.dirExists = false then ⟨false, none, 0, false⟩
  else if candidates fs = [] then ⟨true, none, 0, false⟩
  else
    ⟨true, some (runLoop (sortByName (candidates fs)) (0, 0)),
      (invokedFiles (sortByName (candidates fs))).length, false⟩

/-! ### Helper lemmas -/

theorem blendChan_transparent_white (c : Nat) : blendChan 255 c 0 = 255 := by
  simp [blendChan, muldiv255]

theorem runLoop_eq (files : List FileInfo) (opt skip : Nat) :
    runLoop files (opt, skip) =
      (opt + optimizedCount files, skip + skippedCount files) := by
  induction files generalizing opt skip with
  | nil => simp [runLoop, optimizedCount, skippedCount]
  | cons f fs ih =>
    simp only [runLoop]
    by_cases h : skipCheck f = true
    · have hfo : fileOutcome f = Outcome.skippedExisting := by
        simp [fileOutcome, h]
      rw [if_pos h, ih]
      simp [optimizedCount, skippedCount, hfo, Prod.mk.injEq]
      all_goals omega
    · rw [if_neg h]
      by_cases ht : f.transformOk = true
      · have hfo : fileOutcome f = Outcome.processed := by
          simp [fileOutcome, h, ht]
        rw [if_pos ht, ih]
        simp [optimizedCount, skippedCount, hfo, Prod.mk.injEq]
        all_goals omega
      · have hfo : fileOutcome f = Outcome.failed := by
          simp [fileOutcome, h, ht]
        rw [if_neg ht, ih]
        simp [optimizedCount, skippedCount, hfo, Prod.mk.injEq]
        all_goals omega

theorem counts_all_skip (files : List FileInfo)
    (h : ∀ f ∈ files, skipCheck f = true) :
    optimizedCount files = 0 ∧ skippedCount files = files.length := by
  induction files with
  | nil => exact ⟨rfl, rfl⟩
  | cons f fs ih =>
    have hfo : fileOutcome f = Outcome.skippedExisting := by
      simp [fileOutcome, h f (List.mem_cons_self f fs)]
    have ihr := ih fun g hg => h g (List.mem_cons_of_mem f hg)
    simp [optimizedCount, skippedCount, hfo, ihr.1, ihr.2]
    omega

theorem suffixOf_suffix (name : List Char) : suffixOf name <:+ name := by
  unfold suffixOf
  cases lastDotIdx name with
  | none => exact List.nil_suffix
  | some i =>
    show (if 0 < i ∧ i < name.length - 1 then name.drop i else []) <:+ name
    by_cases h : 0 < i ∧ i < name.length - 1
    · rw [if_pos h]
      exact List.drop_suffix i name
    · rw [if_neg h]
      exact List.nil_suffix

theorem getLast_of_suffix {s t : List Char} (h : t <:+ s) (hne : t ≠ []) :
    s.getLast? = t.getLast? := by
  obtain ⟨u, rfl⟩ := h
  exact List.getLast?_append_of_ne_nil u hne

theorem extMatch_getLast (s : List Char) (h : extMatch s = true) :
    s ≠ [] ∧ (s.getLast? = some 'g' ∨ s.getLast? = some 'G') := by
  unfold extMatch at h
  simp only [Bool.or_eq_true, beq_iff_eq] at h
  rcases h with ((((h | h) | h) | h) | h) | h <;> subst h <;>
    exact ⟨by decide, by decide⟩

/-! ### Claim theorems -/

/-- C1 counterexample: at input width 2, height 3, maxWidth 1 (so width is
larger than maxWidth and maxWidth is positive), the code's resize yields
height `int(3 * (1/2)) = 1`, while the claimed `round(3 * 1 / 2) = 2`; the
claim's equality fails on the code. -/
theorem resize_round_mismatch :
    0 < 1 ∧ 1 < 2 ∧ resize 2 3 1 = (1, 1) ∧ resizeSpec 2 3 1 = (1, 2) ∧
      resize 2 3 1 ≠ resizeSpec 2 3 1 := by
  decide

/-- C1 (amended): for maxWidth > 0, the transform leaves dimensions
unchanged when width ≤ maxWidth, and when width > maxWidth it produces
width maxWidth and height `floor(height * maxWidth / width)` (Python `int`
truncation, not `round`). -/
theorem resize_floor_policy (w h maxWidth : Nat) (hmw : 0 < maxWidth) :
    (w ≤ maxWidth → resize w h maxWidth = (w, h)) ∧
    (maxWidth < w → resize w h maxWidth = (maxWidth, h * maxWidth / w)) := by
  constructor
  · intro hle
    unfold resize
    rw [if_neg (by omega)]
  · intro hlt
    unfold resize
    rw [if_pos hlt]

/-- C1 witness: a concrete instance of the amended resize policy,
`resize 5 7 3 = (3, floor(7*3/5)) = (3, 4)`. -/
theorem resize_floor_policy_witness : resize 5 7 3 = (3, 7 * 3 / 5) :=
  (resize_floor_policy 5 7 3 (by decide)).2 (by decide)

/-- C2: inputs whose mode has an alpha channel or is palette-indexed are
composited over opaque white into RGB — the output mode is `RGB` (no alpha
channel) and a fully transparent pixel becomes (255, 255, 255) — while every
other non-RGB mode is converted directly to RGB. -/
theorem normalize_alpha_white (m : PilMode) (p : Px) :
    (hasAlphaOrPalette m = true →
      normalizeMode m = PilMode.RGB ∧
        (p.a = 0 → normalizePixel m p = ⟨255, 255, 255, 255⟩)) ∧
    (hasAlphaOrPalette m = false → m ≠ PilMode.RGB →
      normalizeMode m = PilMode.RGB ∧ normalizePixel m p = convertRGB m p) := by
  cases m with
  | RGBA =>
    refine ⟨fun _ => ⟨rfl, fun ha => ?_⟩, fun hfalse => by simp [hasAlphaOrPalette] at hfalse⟩
    simp [normalizePixel, ha, blendChan_transparent_white]
  | LA =>
    refine ⟨fun _ => ⟨rfl, fun ha => ?_⟩, fun hfalse => by simp [hasAlphaOrPalette] at hfalse⟩
    simp [normalizePixel, ha, blendChan_transparent_white]
  | P =>
    refine ⟨fun _ => ⟨rfl, fun ha => ?_⟩, fun hfalse => by simp [hasAlphaOrPalette] at hfalse⟩
    simp [normalizePixel, ha, blendChan_transparent_white]
  | RGB =>
    exact ⟨fun htrue => by simp [hasAlphaOrPalette] at htrue,
      fun _ hne => absurd rfl hne⟩
  | L =>
    exact ⟨fun htrue => by simp [hasAlphaOrPalette] at htrue,
      fun _ _ => ⟨rfl, rfl⟩⟩

/-- C2 witness: a fully transparent RGBA pixel (10, 20, 30, alpha 0) becomes
opaque white and the mode becomes RGB. -/
theorem normalize_alpha_white_witness :
    normalizeMode PilMode.RGBA = PilMode.RGB ∧
      normalizePixel PilMode.RGBA ⟨10, 20, 30, 0⟩ = ⟨255, 255, 255, 255⟩ := by
  have h := (normalize_alpha_white PilMode.RGBA ⟨10, 20, 30, 0⟩).1 rfl
  exact ⟨h.1, h.2 rfl⟩

/-- C3: a file is skipped (and the transform not invoked) iff its output
exists and is strictly newer; a run in which every candidate's output exists
and is newer skips everything: skip count equals the candidate count,
optimized count is zero, no transform is invoked. -/
theorem skip_iff_newer_output :
    (∀ f : FileInfo, fileOutcome f = Outcome.skippedExisting ↔
        (f.outExists = true ∧ f.inMtime < f.outMtime)) ∧
    (∀ (files : List FileInfo) (f : FileInfo), f ∈ invokedFiles files ↔
        (f ∈ files ∧ ¬(f.outExists = true ∧ f.inMtime < f.outMtime))) ∧
    (∀ files : List FileInfo,
        (∀ f ∈ files, f.outExists = true ∧ f.inMtime < f.outMtime) →
        runLoop files (0, 0) = (0, files.length) ∧ invokedFiles files = []) := by
  have hiff : ∀ g : FileInfo,
      skipCheck g = true ↔ (g.outExists = true ∧ g.inMtime < g.outMtime) := by
    intro g
    simp [skipCheck]
  refine ⟨?_, ?_, ?_⟩
  · intro f
    by_cases h : skipCheck f = true
    · simp [fileOutcome, h, ← hiff f]
    · simp only [fileOutcome, if_neg h]
      rw [← hiff f]
      cases htr : f.transformOk <;> simp [htr, h]
  · intro files f
    rw [invokedFiles, List.mem_filter]
    rw [← hiff f]
    simp
  · intro files hall
    have hsk : ∀ f ∈ files, skipCheck f = true :=
      fun f hf => (hiff f).mpr (hall f hf)
    have hc := counts_all_skip files hsk
    refine ⟨?_, ?_⟩
    · rw [runLoop_eq files 0 0, hc.1, hc.2]
      simp
    · rw [invokedFiles, List.filter_eq_nil_iff]
      intro a ha
      simp [hsk a ha]

/-- C3 witness: a singleton run whose only candidate has a newer output is
fully skipped: counters (0, 1) and no transform invoked. -/
theorem skip_iff_newer_output_witness :
    runLoop [⟨("a"), 1, true, 2, true⟩] (0, 0) = (0, 1) ∧
      invokedFiles [⟨("a"), 1, true, 2, true⟩] = [] := by
  have h := skip_iff_newer_output.2.2 [⟨("a"), 1, true, 2, true⟩] (by decide)
  exact ⟨h.1, h.2⟩

/-- C4: after the run, every candidate either has an output file strictly
newer than its input, or was explicitly skipped, or was logged as failed.
The hypothesis says the run's wall-clock write time is later than the
input's mtime. -/
theorem output_or_logged_invariant (now : Nat) (f : FileInfo)
    (h : f.inMtime < now) :
    ((outputAfterRun now f).1 = true ∧ f.inMtime < (outputAfterRun now f).2) ∨
      fileOutcome f = Outcome.skippedExisting ∨ fileOutcome f = Outcome.failed := by
  cases hfo : fileOutcome f with
  | processed =>
    left
    simp [outputAfterRun, hfo, h]
  | skippedExisting => exact Or.inr (Or.inl rfl)
  | failed => exact Or.inr (Or.inr rfl)

/-- C4 witness: a concrete candidate (input mtime 1, no prior output, run
time 5) lands in one of the invariant's disjuncts. -/
theorem output_or_logged_invariant_witness :
    ((outputAfterRun 5 ⟨("a"), 1, false, 0, true⟩).1 = true ∧
        1 < (outputAfterRun 5 ⟨("a"), 1, false, 0, true⟩).2) ∨
      fileOutcome ⟨("a"), 1, false, 0, true⟩ = Outcome.skippedExisting ∨
      fileOutcome ⟨("a"), 1, false, 0, true⟩ = Outcome.failed :=
  output_or_logged_invariant 5 ⟨("a"), 1, false, 0, true⟩ (by decide)

/-- C5: the loop never aborts early (one outcome per candidate), the
counters count exactly the processed and skipped outcomes (so a failed file
increments no success counter), and optimized + skipped + failed equals the
candidate count. -/
theorem counts_partition (files : List FileInfo) :
    (outcomes files).length = files.length ∧
    runLoop files (0, 0) = (optimizedCount files, skippedCount files) ∧
    optimizedCount files + skippedCount files + failedCount files = files.length := by
  refine ⟨by simp [outcomes], ?_, ?_⟩
  · rw [runLoop_eq files 0 0]
    simp
  · induction files with
    | nil => simp [optimizedCount, skippedCount, failedCount]
    | cons f fs ih =>
      simp only [optimizedCount, skippedCount, failedCount, List.length_cons]
      cases hfo : fileOutcome f <;> simp [hfo] <;> omega

/-- C6: every error raised inside the transform's try block surfaces as the
single `False` outcome carrying its cause, and `optimize_image` (a total
function into `Bool`) never propagates an exception to its caller. -/
theorem errors_contained (f : ImgFile) (maxWidth : Nat) :
    (∃ img, tryBody f maxWidth = Except.ok img ∧ optimize_image f maxWidth = true) ∨
    (∃ e, tryBody f maxWidth = Except.error e ∧ optimize_image f maxWidth = false) := by
  cases h : tryBody f maxWidth with
  | ok img =>
    left
    exact ⟨img, rfl, by simp [optimize_image, h]⟩
  | error e =>
    right
    exact ⟨e, rfl, by simp [optimize_image, h]⟩

/-- C7: when the input directory is missing, `main` returns immediately with
nothing enumerated, no counters created, no transform invoked, and no error
signaled to the OS. -/
theorem missing_dir_aborts (fs : FS) (h : fs.dirExists = false) :
    main fs = ⟨false, none, 0, false⟩ := by
  unfold main
  rw [h]
  simp

/-- C7 witness: the concrete missing-directory filesystem. -/
theorem missing_dir_aborts_witness :
    main ⟨false, []⟩ = ⟨false, none, 0, false⟩ :=
  missing_dir_aborts ⟨false, []⟩ rfl

/-- C8: any two enumerations of the same candidate set are visited in the
same order, which is sorted lexicographically by name and is a permutation
of the candidates. -/
theorem visit_order_deterministic (l₁ l₂ : List String) (h : List.Perm l₁ l₂) :
    visitOrder l₁ = visitOrder l₂ ∧
      List.Sorted (· ≤ ·) (visitOrder l₁) ∧ List.Perm (visitOrder l₁) l₁ := by
  refine ⟨?_, List.sorted_insertionSort _ l₁, List.perm_insertionSort _ l₁⟩
  exact List.eq_of_perm_of_sorted
    (((List.perm_insertionSort _ l₁).trans h).trans (List.perm_insertionSort _ l₂).symm)
    (List.sorted_insertionSort _ l₁) (List.sorted_insertionSort _ l₂)

/-- C8 witness: the two enumeration orders of the set of names a, b yield
the same visit order. -/
theorem visit_order_deterministic_witness :
    visitOrder [("b"), ("a")] = visitOrder [("a"), ("b")] ∧
      List.Sorted (· ≤ ·) (visitOrder [("b"), ("a")]) ∧
      List.Perm (visitOrder [("b"), ("a")]) [("b"), ("a")] :=
  visit_order_deterministic [("b"), ("a")] [("a"), ("b")]
    (List.Perm.swap ("a") ("b") [])

/-- C9 counterexample: no input makes the transform write the output and
then raise in a later step.  The only post-save step that could raise is the
size-reduction division of line 54, whose denominator is the input's byte
size; but `Image.open` (line 25) rejects every zero-byte file, so a run that
reaches the save has a positive denominator, and the failed-yet-written
outcome `(false, true)` is unreachable. -/
theorem no_failed_write_exists :
    ¬ ∃ (f : ImgFile) (maxWidth : Nat), optimizeRunW f maxWidth = (false, true) := by
  rintro ⟨⟨dec, bs, rok, sok⟩, maxWidth, h⟩
  unfold optimizeRunW decodeFile at h
  by_cases hb : bs = 0
  · subst hb
    simp at h
  · cases dec <;> cases rok <;> cases sok <;> simp [hb] at h

/-- C9 (amended): a failed per-file transform never leaves a newly written
output file: whenever `optimize_image` returns `False`, the save step did
not complete, because every step after a completed save is a size
computation that cannot raise on a decodable (hence nonempty) input.  On
error the operation is atomic. -/
theorem failure_implies_no_write (f : ImgFile) (maxWidth : Nat)
    (h : optimize_image f maxWidth = false) :
    optimizeRunW f maxWidth = (false, false) := by
  obtain ⟨dec, bs, rok, sok⟩ := f
  by_cases hb : bs = 0
  · subst hb
    simp [optimizeRunW, decodeFile]
  · cases dec <;> cases rok <;> cases sok <;>
      simp_all [optimize_image, tryBody, decodeFile, optimizeRunW, hb]

/-- C9 witness: an unreadable input file (nonzero size, codec cannot parse
it) returns `False` and no output is written. -/
theorem failure_implies_no_write_witness :
    optimizeRunW ⟨none, 7, true, true⟩ 3000 = (false, false) :=
  failure_implies_no_write ⟨none, 7, true, true⟩ 3000 rfl

/-- C10: the candidate filter with the `.webp` exclusion selects exactly the
same names as the filter without it: a name whose lowered pathlib suffix is
one of the image extensions cannot end in `.webp`. -/
theorem webp_filter_redundant (name : List Char) :
    isCandidateFull name = isCandidateNoWebp name := by
  unfold isCandidateFull isCandidateNoWebp
  cases hm : extMatch ((suffixOf name).map lowerChar) with
  | false => simp
  | true =>
    suffices hns : ¬ (extWebp <:+ name) by simp [hns]
    intro hsuf
    obtain ⟨hne, hlast⟩ := extMatch_getLast _ hm
    have hsne : suffixOf name ≠ [] := by
      intro h0
      rw [h0] at hne
      simp at hne
    have h1 : name.getLast? = (suffixOf name).getLast? :=
      getLast_of_suffix (suffixOf_suffix name) hsne
    have h2 : name.getLast? = extWebp.getLast? :=
      getLast_of_suffix hsuf (by decide)
    have h3 : (suffixOf name).getLast? = some 'p' := by
      rw [← h1, h2]
      rfl
    have h4 : ((suffixOf name).map lowerChar).getLast? = some (lowerChar 'p') := by
      rw [List.getLast?_map, h3]
      rfl
    rcases hlast with h | h <;> rw [h4] at h <;> exact absurd h (by decide)

end OptimizeImages
